import Mathlib

/-!
# Verification of the gzinspector boundary-recovery engine

A shallow embedding of the core of `gzinspector` (files `src/gzip.rs`,
`src/models.rs`, `src/main.rs`) and proofs about it.

Modelling conventions:
* bytes are `Nat` (a Rust `u8` is a value `< 256`; all comparisons in the
  source are against constants, so no wrap-around arithmetic occurs);
* the seekable byte source is a `List Nat` together with an index;
* the external DEFLATE/gzip decoder (`flate2::read::GzDecoder` followed by
  `read_to_end`) is an abstract parameter `D : List Nat → Option (List Nat)`;
  `some payload` models a successful end-to-end `read_to_end`, `none` models
  an `Err`.  The facts about a genuine gzip member that the claims appeal to
  are collected in `IsMember` below;
* `chrono::DateTime::from_timestamp` and UTF-8 decoding
  (`String::from_utf8 ... .ok()`) are likewise abstract parameters
  `fmtTime : Nat → Option String` and `utf8 : List Nat → Option String`;
* loops that are not structurally recursive are written with an explicit
  fuel argument; the callers pass fuel that provably cannot run out
  (every iteration consumes at least one byte of the stream).
-/

namespace GzInspector

/-! ## Data model (`src/models.rs`) -/

/-- `ChunkInfo` from `src/models.rs`.  `compression_ratio` (an `f64` quotient
of the two sizes in the source) is modelled as an exact rational. -/
structure ChunkInfo where
  chunk_number : Nat
  offset : Nat
  compressed_size : Nat
  uncompressed_size : Nat
  compression_ratio : ℚ
  header_info : String
  preview_data : Option (List Nat)
deriving Repr, DecidableEq, Inhabited

/-- `GzipHeaderInfo` from `src/models.rs`. -/
structure GzipHeaderInfo where
  compression_method : String
  flags : List String
  mtime : String
  extra_flags : String
  os : String
  extra_fields : List (Nat × List Nat)
  filename : Option String
  comment : Option String
deriving Repr, DecidableEq, Inhabited

/-- `FileSummary` from `src/models.rs`. -/
structure FileSummary where
  total_chunks : Nat
  total_compressed_size : Nat
  total_uncompressed_size : Nat
  average_compression_ratio : ℚ
deriving Repr, DecidableEq, Inhabited

/-- `TailBuffer` from `src/models.rs`. -/
structure TailBuffer where
  chunks : List ChunkInfo
  capacity : Nat
  total_seen : Nat
deriving Repr, DecidableEq, Inhabited

/-- `TailBuffer::new`. -/
def TailBuffer.new (capacity : Nat) : TailBuffer :=
  { chunks := [], capacity := capacity, total_seen := 0 }

/-- `TailBuffer::add`: increment `total_seen`, then either push (while under
capacity) or overwrite the slot at index `total_seen % capacity`; like
`Vec::get_mut`, `List.set` is a no-op when the index is out of bounds. -/
def TailBuffer.add (b : TailBuffer) (chunk : ChunkInfo) : TailBuffer :=
  let t := b.total_seen + 1
  if b.chunks.length < b.capacity then
    { b with chunks := b.chunks ++ [chunk], total_seen := t }
  else
    { b with chunks := b.chunks.set (t % b.capacity) chunk, total_seen := t }

/-- `TailBuffer::should_buffer` (`saturating_sub` is `Nat` subtraction). -/
def TailBuffer.should_buffer (b : TailBuffer) (chunk_num : Nat) : Bool :=
  decide (b.total_seen - b.capacity ≤ chunk_num)

/-- `TailBuffer::get_buffered`: physical order while under capacity,
otherwise the two slices split at `total_seen % capacity`. -/
def TailBuffer.get_buffered (b : TailBuffer) : List ChunkInfo :=
  if b.total_seen ≤ b.capacity then b.chunks
  else
    let start_idx := b.total_seen % b.capacity
    b.chunks.drop start_idx ++ b.chunks.take start_idx

/-- A minimal chunk record carrying just its ordinal number, for feeding the
tail buffer in the `TailBuffer` claims. -/
def mkChunk (n : Nat) : ChunkInfo :=
  { chunk_number := n, offset := 0, compressed_size := 10,
    uncompressed_size := 10, compression_ratio := 1, header_info := "",
    preview_data := none }

/-- The buffer obtained from `TailBuffer::new cap` by adding the chunks
numbered `0, 1, ..., n-1` in order. -/
def buildBuf (cap : Nat) : Nat → TailBuffer
  | 0 => TailBuffer.new cap
  | n + 1 => (buildBuf cap n).add (mkChunk n)

/-! ## Errors (`io::Error` values created in `src/gzip.rs`)

Each constructor stands for one `(ErrorKind, message)` shape the source
creates.  `endOfFile` ("End of file", kind `UnexpectedEof`) and `headerEof`
(a failed `read_exact` inside `parse_gzip_header`, also kind
`UnexpectedEof`) are the two errors whose kind the chunk-iterator loop in
`inspect_file` treats as the normal end-of-stream signal. -/

/-- Decidable equality for `Except` results, so that concrete runs of the
model can be checked by `decide`. -/
instance {ε α : Type} [DecidableEq ε] [DecidableEq α] : DecidableEq (Except ε α) := fun a b =>
  match a, b with
  | .error e, .error f => decidable_of_iff (e = f) (by simp)
  | .error _, .ok _ => isFalse (by simp)
  | .ok _, .error _ => isFalse (by simp)
  | .ok x, .ok y => decidable_of_iff (x = y) (by simp)

inductive GzError where
  | endOfFile : GzError
  | headerEof : GzError
  | invalidHeader (b0 b1 b2 : Nat) : GzError
  | chunkTooLarge : GzError
  | decompressionError (offset : Nat) : GzError
deriving Repr, DecidableEq, Inhabited

/-- Whether the error's `io::ErrorKind` is `UnexpectedEof` — the test the
loop in `inspect_file` performs to stop iterating without failing. -/
def GzError.isEof : GzError → Bool
  | .endOfFile => true
  | .headerEof => true
  | _ => false

/-! ## Header decoding (`parse_gzip_header`, src/gzip.rs lines 8-109) -/

/-- `GZIP_HEADER_SIZE` from the source. -/
def GZIP_HEADER_SIZE : Nat := 10

/-- One lower-case hexadecimal digit. -/
def hexDigit (n : Nat) : Char :=
  if n < 10 then Char.ofNat (48 + n) else Char.ofNat (87 + n)

/-- Two-digit lower-case hex rendering, Rust `format!("{:02x}", b)` for a byte. -/
def hex2 (n : Nat) : String :=
  String.mk [hexDigit (n / 16 % 16), hexDigit (n % 16)]

/-- The fixed OS-byte table of `parse_gzip_header`. -/
def osName : Nat → String
  | 0 => "FAT"
  | 1 => "Amiga"
  | 2 => "VMS"
  | 3 => "Unix"
  | 4 => "VM/CMS"
  | 5 => "Atari TOS"
  | 6 => "HPFS"
  | 7 => "Macintosh"
  | 8 => "Z-System"
  | 9 => "CP/M"
  | 10 => "TOPS-20"
  | 11 => "NTFS"
  | 12 => "QDOS"
  | 13 => "Acorn RISCOS"
  | 255 => "unknown"
  | x => "unknown(" ++ toString x ++ ")"

/-- The null-terminated reads used for the filename and the comment: collect
bytes until a zero byte (consumed but not collected) or end of input.
Returns the collected bytes and the number of bytes consumed. -/
def readCString : List Nat → List Nat × Nat
  | [] => ([], 0)
  | b :: t =>
    if b = 0 then ([], 1)
    else
      let r := readCString t
      (b :: r.1, r.2 + 1)

/-- The subfield loop over the extra-field buffer (`while pos + 4 <= extra.len()`).
A subfield whose declared length overruns the buffer contributes empty data;
`pos` advances by `4 + len` either way.  `fuel` is an upper bound on the
number of iterations (each consumes at least four bytes); callers pass
`extra.length + 1`, which cannot run out. -/
def parseSubfields (extra : List Nat) : Nat → Nat → List (Nat × List Nat)
  | _, 0 => []
  | pos, fuel + 1 =>
    if pos + 4 ≤ extra.length then
      let si1 := extra.getD pos 0
      let si2 := extra.getD (pos + 1) 0
      let len := extra.getD (pos + 2) 0 + 256 * extra.getD (pos + 3) 0
      let data := if pos + 4 + len ≤ extra.length then (extra.drop (pos + 4)).take len else []
      (Nat.lor (Nat.shiftLeft si1 8) si2, data) :: parseSubfields extra (pos + 4 + len) fuel
    else []

/-- The mtime rendering: 0 is "Not set", an unrepresentable value "Invalid"
(`DateTime::from_timestamp(..).map_or("Invalid", to_string)`). -/
def renderMtime (fmtTime : Nat → Option String) (mtime : Nat) : String :=
  if mtime = 0 then "Not set" else (fmtTime mtime).getD "Invalid"

/-- The extra-field step of `parse_gzip_header` (the two `read_exact` calls
and the subfield loop, run only when FLG bit 2 is set): the bytes consumed
from the stream and the parsed subfields, or the `read_exact` eof error. -/
def extraFieldStep (h3 : Nat) (rest : List Nat) : Except GzError (Nat × List (Nat × List Nat)) :=
  if h3.testBit 2 then
    if rest.length < 2 then .error .headerEof
    else
      let xlen := rest.getD 0 0 + 256 * rest.getD 1 0
      if rest.length - 2 < xlen then .error .headerEof
      else
        let extra := (rest.drop 2).take xlen
        .ok (2 + xlen, parseSubfields extra 0 (extra.length + 1))
  else .ok (0, [])

/-- `parse_gzip_header`.  `header` is the fixed 10-byte header, `rest` the
stream contents following it; the result carries the parsed record and the
number of bytes of `rest` consumed (the reader advance).  `utf8` models
`String::from_utf8(..).ok()` and `fmtTime` models
`chrono::DateTime::from_timestamp(..).map(to_string)`. -/
def parse_gzip_header (utf8 : List Nat → Option String) (fmtTime : Nat → Option String)
    (header rest : List Nat) : Except GzError (GzipHeaderInfo × Nat) :=
  let h3 := header.getD 3 0
  let flags :=
    (if h3.testBit 0 then ["TEXT"] else []) ++
    (if h3.testBit 1 then ["HCRC"] else []) ++
    (if h3.testBit 2 then ["EXTRA"] else []) ++
    (if h3.testBit 3 then ["NAME"] else []) ++
    (if h3.testBit 4 then ["COMMENT"] else [])
  let mtime := header.getD 4 0 + 256 * header.getD 5 0 + 65536 * header.getD 6 0 +
    16777216 * header.getD 7 0
  let extraFlags :=
    if header.getD 8 0 = 2 then "max compression"
    else if header.getD 8 0 = 4 then "fastest"
    else "unknown(0x" ++ hex2 (header.getD 8 0) ++ ")"
  match extraFieldStep h3 rest with
  | .error e => .error e
  | .ok (extraConsumed, extraFields) =>
    let afterExtra := rest.drop extraConsumed
    let nameRes := if h3.testBit 3 then readCString afterExtra else ([], 0)
    let filename := if h3.testBit 3 then utf8 nameRes.1 else none
    let afterName := afterExtra.drop nameRes.2
    let commentRes := if h3.testBit 4 then readCString afterName else ([], 0)
    let comment := if h3.testBit 4 then utf8 commentRes.1 else none
    .ok ({ compression_method :=
             if header.getD 2 0 = 8 then "deflate"
             else "unknown(" ++ toString (header.getD 2 0) ++ ")",
           flags := flags, mtime := renderMtime fmtTime mtime, extra_flags := extraFlags,
           os := osName (header.getD 9 0), extra_fields := extraFields,
           filename := filename, comment := comment },
         extraConsumed + nameRes.2 + commentRes.2)

/-- The `Display` rendering of `GzipHeaderInfo` stored into
`ChunkInfo.header_info` by `read_chunk`. -/
def GzipHeaderInfo.render (i : GzipHeaderInfo) : String :=
  i.compression_method ++ "|" ++ String.intercalate "|" i.flags ++
    (match i.filename with
     | some fname => "|" ++ fname
     | none => "")

/-! ## Boundary scanner and member decoder (`read_chunk`, src/gzip.rs 111-216) -/

/-- The read-block size (`let mut buffer = [0u8; 8192]`). -/
def BLOCK_SIZE : Nat := 8192

/-- The 20 MiB safety ceiling (`20 * 1024 * 1024`). -/
def SIZE_LIMIT : Nat := 20 * 1024 * 1024

/-- The candidate scan inside one block (`for i in 0..bytes_read`): the first
index `i` at which the magic pair `0x1f 0x8b` occurs with a following byte in
the same block *and* trial decompression of the bytes accumulated so far plus
`block[..i]` succeeds.  Failed candidates only restore the stream position,
which is a no-op here.  `r` counts the indices still to try. -/
def findBoundaryAux (D : List Nat → Option (List Nat)) (acc block : List Nat) :
    Nat → Nat → Option Nat
  | 0, _ => none
  | r + 1, i =>
    if 2 ≤ block.length - i ∧ block.getD i 0 = 31 ∧ i + 1 < block.length ∧
        block.getD (i + 1) 0 = 139 ∧ (D (acc ++ block.take i)).isSome = true
    then some i
    else findBoundaryAux D acc block r (i + 1)

/-- The candidate scan over a whole block, starting at index 0. -/
def findBoundary (D : List Nat → Option (List Nat)) (acc block : List Nat) : Option Nat :=
  findBoundaryAux D acc block block.length 0

/-- The `'read_loop'` of `read_chunk`: read a block, scan it for a confirmed
boundary, otherwise append it and enforce the 20 MiB ceiling.  Returns the
accumulated `compressed_data` and the `found_next` flag.  Every iteration
consumes at least one byte, so fuel `data.length + 1` cannot run out. -/
def scanLoop (D : List Nat → Option (List Nat)) (data : List Nat) :
    Nat → List Nat → Nat → Except GzError (List Nat × Bool)
  | _, acc, 0 => .ok (acc, false)
  | pos, acc, fuel + 1 =>
    let block := (data.drop pos).take BLOCK_SIZE
    if block.length = 0 then .ok (acc, false)
    else
      match findBoundary D acc block with
      | some i => .ok (acc ++ block.take i, true)
      | none =>
        let acc2 := acc ++ block
        if SIZE_LIMIT < acc2.length then
          if (D acc2).isSome then .ok (acc2, false) else .error .chunkTooLarge
        else scanLoop D data (pos + block.length) acc2 fuel

/-- The backward linear search of the last-chunk handler
(`for i in (GZIP_HEADER_SIZE..compressed_data.len()).rev()`): the first
truncation length, counting down from the argument, at which decompression
succeeds; lengths below `GZIP_HEADER_SIZE` are never tried. -/
def backwardSearch (D : List Nat → Option (List Nat)) (acc : List Nat) : Nat → Option Nat
  | 0 => none
  | i + 1 =>
    if GZIP_HEADER_SIZE ≤ i + 1 then
      if (D (acc.take (i + 1))).isSome = true then some (i + 1)
      else backwardSearch D acc i
    else none

/-- The `if !found_next` block of `read_chunk` (lines 180-197): if the whole
accumulation decompresses, keep it; otherwise truncate to the largest
decodable prefix found by the backward search, or keep the buffer unchanged
when the search finds nothing. -/
def handleLastChunk (D : List Nat → Option (List Nat)) (acc : List Nat) : List Nat :=
  if (D acc).isSome = true then acc
  else
    match backwardSearch D acc (acc.length - 1) with
    | some i => acc.take i
    | none => acc

/-- `read_chunk`.  Note that, as in the source, `compressed_data` starts from
the 10 header bytes and then accumulates the stream contents from the
position *after* the optional header fields consumed by `parse_gzip_header`:
the optional-field bytes themselves are never added to it. -/
def read_chunk (D : List Nat → Option (List Nat)) (utf8 : List Nat → Option String)
    (fmtTime : Nat → Option String) (data : List Nat) (offset chunk_number : Nat) :
    Except GzError ChunkInfo :=
  let avail := data.drop offset
  if avail.length < GZIP_HEADER_SIZE then .error .endOfFile
  else
    let header := avail.take GZIP_HEADER_SIZE
    if header.getD 0 0 = 31 ∧ header.getD 1 0 = 139 then
      match parse_gzip_header utf8 fmtTime header (avail.drop GZIP_HEADER_SIZE) with
      | .error e => .error e
      | .ok (header_info, consumed) =>
        match scanLoop D data (offset + GZIP_HEADER_SIZE + consumed) header (data.length + 1) with
        | .error e => .error e
        | .ok (scanned, found_next) =>
          let compressed_data := if found_next then scanned else handleLastChunk D scanned
          match D compressed_data with
          | some decompressed =>
            .ok { chunk_number := chunk_number, offset := offset,
                  compressed_size := compressed_data.length,
                  uncompressed_size := decompressed.length,
                  compression_ratio :=
                    (decompressed.length : ℚ) / (compressed_data.length : ℚ),
                  header_info := header_info.render,
                  preview_data := some decompressed }
          | none => .error (.decompressionError offset)
    else .error (.invalidHeader (header.getD 0 0) (header.getD 1 0) (header.getD 2 0))

/-! ## Chunk iterator (`inspect_file`, src/main.rs 241-363) -/

/-- The chunk loop of `inspect_file`: call `read_chunk` at the running offset,
stop silently on an `UnexpectedEof`-kind error, stop with the error
otherwise, and advance the offset by the returned `compressed_size`.  Fuel
`data.length + 1` cannot run out because every chunk is at least one byte. -/
def inspectLoop (D : List Nat → Option (List Nat)) (utf8 : List Nat → Option String)
    (fmtTime : Nat → Option String) (data : List Nat) :
    Nat → Nat → Nat → List ChunkInfo × Option GzError
  | 0, _, _ => ([], none)
  | fuel + 1, offset, chunk_number =>
    match read_chunk D utf8 fmtTime data offset chunk_number with
    | .error e => if e.isEof then ([], none) else ([], some e)
    | .ok info =>
      let rest := inspectLoop D utf8 fmtTime data fuel
        (offset + info.compressed_size) (chunk_number + 1)
      (info :: rest.1, rest.2)

/-- `inspect_file` without the printing: the chunk list and the terminal
`FileSummary`, or the fatal error (in which case the source returns before
building any summary).  The running totals added up chunk by chunk in the
source are the sums over the emitted list. -/
def inspect_file (D : List Nat → Option (List Nat)) (utf8 : List Nat → Option String)
    (fmtTime : Nat → Option String) (data : List Nat) :
    Except GzError (List ChunkInfo × FileSummary) :=
  match inspectLoop D utf8 fmtTime data (data.length + 1) 0 0 with
  | (_, some e) => .error e
  | (chunks, none) =>
    .ok (chunks,
      { total_chunks := chunks.length,
        total_compressed_size := (chunks.map ChunkInfo.compressed_size).sum,
        total_uncompressed_size := (chunks.map ChunkInfo.uncompressed_size).sum,
        average_compression_ratio :=
          ((chunks.map ChunkInfo.uncompressed_size).sum : ℚ) /
          ((chunks.map ChunkInfo.compressed_size).sum : ℚ) })

/-! ## Environment assumptions about the external decoder -/

/-- Modelled from the spec: what it means for `m` to be an independently
valid gzip member with payload `p`, relative to an abstract single-member
decoder `D` standing for `flate2::read::GzDecoder` + `read_to_end` (the
decoder itself is an external crate, not part of this repository).  A
genuine member starts with the magic pair and the deflate method byte, is at
least header (10) + trailer (8) bytes long, decodes to `p` whenever the
input begins with `m` (a gzip decoder stops at the member's trailer and
ignores following bytes), and fails on every proper prefix of `m` (the
deflate stream or the trailer is then truncated). -/
def IsMember (D : List Nat → Option (List Nat)) (m p : List Nat) : Prop :=
  18 ≤ m.length ∧ m.getD 0 0 = 31 ∧ m.getD 1 0 = 139 ∧ m.getD 2 0 = 8 ∧
  (∀ rest, D (m ++ rest) = some p) ∧
  (∀ j, j < m.length → D (m.take j) = none)

/-- Modelled from the spec: the arithmetic mean of the per-chunk compression
ratios — the aggregate the spec says the summary does **not** use. -/
def meanOfChunkRatios (chunks : List ChunkInfo) : ℚ :=
  (chunks.map ChunkInfo.compression_ratio).sum / (chunks.length : ℚ)

/-! ## Concrete fixtures

Small concrete byte vectors and decoders used to run the model.  The
decoders are prefix matchers: exactly the inputs beginning with the given
member decode, to its payload — the behaviour `IsMember` requires of a real
gzip decoder on that member. -/

/-- A UTF-8 decoder that always fails (every decode attempt returns `None`). -/
def u0 : List Nat → Option String := fun _ => none

/-- A timestamp renderer that always fails (every value is unrepresentable). -/
def f0 : Nat → Option String := fun _ => none

/-- A decoder that fails on every input. -/
def Dnone : List Nat → Option (List Nat) := fun _ => none

/-- The single-member decoder: succeeds with payload `p` exactly on inputs
that begin with `m`. -/
def prefixMatcher (m p : List Nat) : List Nat → Option (List Nat) :=
  fun x => if m.isPrefixOf x then some p else none

/-- A 24-byte member whose FLG byte sets NAME (0x08), with an empty
null-terminated filename at offset 10 and a spurious magic pair
`0x1f 0x8b` at offsets 13-14, inside the compressed payload region. -/
def m1c : List Nat := [31, 139, 8, 8, 0, 0, 0, 0, 0, 3, 0, 1, 2, 31, 139, 3, 4, 5, 1, 1, 1, 1, 5, 9]

/-- The payload of `m1c`. -/
def pay1 : List Nat := [10, 20, 30]

/-- Decoder recognising exactly the member `m1c`. -/
def D1 : List Nat → Option (List Nat) := prefixMatcher m1c pay1

/-- A 25-byte member whose FLG byte sets COMMENT (0x10), with the
null-terminated comment `"A"` at offsets 10-11. -/
def m2c : List Nat := [31, 139, 8, 16, 0, 0, 0, 0, 0, 3, 65, 0, 1, 2, 3, 4, 5, 1, 1, 1, 1, 5, 9, 9, 9]

/-- The payload of `m2c`. -/
def pay2 : List Nat := [7, 7]

/-- Decoder recognising exactly the member `m2c`. -/
def D2 : List Nat → Option (List Nat) := prefixMatcher m2c pay2

/-- A flag-free 14-byte member (FLG = 0) whose bytes after the header are
`7 7 7 7`. -/
def m9a : List Nat := [31, 139, 8, 0, 0, 0, 0, 0, 0, 3, 7, 7, 7, 7]

/-- A flag-free 12-byte member (FLG = 0) whose bytes after the header are
`9 9`. -/
def m9b : List Nat := [31, 139, 8, 0, 0, 0, 0, 0, 0, 3, 9, 9]

/-- Decoder for the two-member stream: inputs beginning with `m9a` decode to
70 payload bytes, inputs beginning with `m9b` decode to 9 payload bytes. -/
def D9 : List Nat → Option (List Nat) := fun x =>
  if m9a.isPrefixOf x then some (List.replicate 70 1)
  else if m9b.isPrefixOf x then some (List.replicate 9 2)
  else none

/-- The concatenation of the two members, a 26-byte stream. -/
def s9 : List Nat := m9a ++ m9b

/-- A flag-free 18-byte member used for successful single-member runs. -/
def m5 : List Nat := [31, 139, 8, 0, 0, 0, 0, 0, 0, 3, 1, 2, 3, 4, 5, 6, 7, 8]

/-- Decoder recognising exactly the member `m5`, payload of one byte. -/
def D5b : List Nat → Option (List Nat) := prefixMatcher m5 [4]

/-- Another flag-free 18-byte member, for the chunk-invariant witness. -/
def m10 : List Nat := [31, 139, 8, 0, 0, 0, 0, 0, 0, 3, 11, 12, 13, 14, 15, 16, 17, 18]

/-- Decoder recognising exactly the member `m10`, payload of two bytes. -/
def D10 : List Nat → Option (List Nat) := prefixMatcher m10 [3, 3]

/-- An 11-byte prefix that decodes, for exercising the backward search. -/
def tgt5 : List Nat := [9, 9, 9, 9, 9, 9, 9, 9, 9, 9, 5]

/-- A 12-byte buffer whose largest decodable prefix is `tgt5`. -/
def acc5 : List Nat := [9, 9, 9, 9, 9, 9, 9, 9, 9, 9, 5, 6]

/-- Decoder succeeding exactly on `tgt5`. -/
def D5 : List Nat → Option (List Nat) := fun x => if x = tgt5 then some [1] else none

/-- An accumulation already at the 20 MiB ceiling. -/
def acc7 : List Nat := List.replicate SIZE_LIMIT 0

/-- A one-byte stream, so the next block read returns one byte. -/
def data7 : List Nat := [7]

/-- A 10-byte header with the EXTRA flag (FLG = 0x04) and a nonzero mtime. -/
def hdr8 : List Nat := [31, 139, 8, 4, 1, 0, 0, 0, 0, 3]

/-- Bytes following `hdr8`: a 4-byte extra field (XLEN = 4) whose single
subfield declares 3 data bytes but only leaves 0, then two payload bytes. -/
def rest8 : List Nat := [4, 0, 65, 66, 3, 0, 9, 9]

/-- The chunk number held in slot `s` of a `buildBuf cap n` buffer once
`cap ≤ n`: chunk `c` is pushed into slot `c` during the fill phase and
written to slot `(c + 1) % cap` afterwards (the post-increment index of
`TailBuffer.add`), so the slot keeps the most recent chunk whose write
targeted it, or the fill-phase chunk `s` if no overwrite reached it yet. -/
def slotVal (cap n s : Nat) : Nat :=
  if cap < n - (n - s) % cap then n - (n - s) % cap - 1 else s

/-- The recovery behaviour of the last-chunk handler when the whole buffer
fails to decompress: either the largest decodable prefix — of length at
least the 10-byte header — is kept and everything longer fails, or no
truncation length decodes and the buffer is left whole. -/
def TruncationSpec (D : List Nat → Option (List Nat)) (acc : List Nat) : Prop :=
  (∃ i, backwardSearch D acc (acc.length - 1) = some i ∧
    handleLastChunk D acc = acc.take i ∧
    GZIP_HEADER_SIZE ≤ i ∧ i < acc.length ∧ (D (acc.take i)).isSome = true ∧
    ∀ k, i < k → k < acc.length → D (acc.take k) = none) ∨
  (backwardSearch D acc (acc.length - 1) = none ∧ handleLastChunk D acc = acc ∧
    ∀ k, GZIP_HEADER_SIZE ≤ k → k < acc.length → D (acc.take k) = none)

/-! ## General lemmas about the scanner loop -/

/-- A prefix matcher for a plausible member satisfies the decoder interface
`IsMember` demands. -/
theorem prefixMatcher_isMember (m p : List Nat) (h18 : 18 ≤ m.length)
    (h0 : m.getD 0 0 = 31) (h1 : m.getD 1 0 = 139) (h2 : m.getD 2 0 = 8) :
    IsMember (prefixMatcher m p) m p := by
  refine ⟨h18, h0, h1, h2, ?_, ?_⟩
  · intro rest
    simp [prefixMatcher, List.isPrefixOf_iff_prefix, List.prefix_append]
  · intro j hj
    have hlen : ¬ m.isPrefixOf (m.take j) = true := by
      intro hpre
      have hle := (List.isPrefixOf_iff_prefix.mp hpre).length_le
      simp [List.length_take] at hle
      omega
    simp [prefixMatcher, hlen]

/-- The only error the read loop itself produces is the size-ceiling one. -/
theorem scanLoop_error_eq {D : List Nat → Option (List Nat)} {data : List Nat} :
    ∀ {fuel pos acc e}, scanLoop D data pos acc fuel = .error e → e = .chunkTooLarge := by
  intro fuel
  induction fuel with
  | zero => intro pos acc e h; simp [scanLoop] at h
  | succ m ih =>
    intro pos acc e h
    simp only [scanLoop] at h
    split at h
    · simp at h
    · split at h
      · simp at h
      · split at h
        · split at h
          · simp at h
          · simp at h
            exact h.symm
        · exact ih h

/-- The accumulated buffer only grows during the loop, and never beyond the
bytes that remain in the stream from the current position. -/
theorem scanLoop_length {D : List Nat → Option (List Nat)} {data : List Nat} :
    ∀ {fuel pos acc res b}, scanLoop D data pos acc fuel = .ok (res, b) →
      acc.length ≤ res.length ∧ res.length ≤ acc.length + (data.length - pos) := by
  intro fuel
  induction fuel with
  | zero =>
    intro pos acc res b h
    simp [scanLoop] at h
    obtain ⟨h1, -⟩ := h
    subst h1
    omega
  | succ m ih =>
    intro pos acc res b h
    have hbl : ((data.drop pos).take BLOCK_SIZE).length ≤ data.length - pos := by
      simp only [List.length_take, List.length_drop]
      exact min_le_right _ _
    simp only [scanLoop] at h
    split at h
    · simp at h
      obtain ⟨h1, -⟩ := h
      subst h1
      omega
    · split at h
      · simp at h
        obtain ⟨h1, -⟩ := h
        subst h1
        simp only [List.length_take, List.length_drop] at hbl ⊢
        simp only [List.length_append, List.length_take, List.length_drop]
        omega
      · split at h
        · split at h
          · simp at h
            obtain ⟨h1, -⟩ := h
            subst h1
            simp only [List.length_append]
            omega
          · simp at h
        · obtain ⟨ih1, ih2⟩ := ih h
          simp only [List.length_append] at ih1 ih2
          omega

/-- A successful backward search returns a truncation length between the
header size and the starting length, at which decompression succeeds, and
every longer length up to the start fails. -/
theorem backwardSearch_some {D : List Nat → Option (List Nat)} {acc : List Nat} :
    ∀ {j i}, backwardSearch D acc j = some i →
      GZIP_HEADER_SIZE ≤ i ∧ i ≤ j ∧ (D (acc.take i)).isSome = true ∧
      ∀ k, i < k → k ≤ j → D (acc.take k) = none := by
  intro j
  induction j with
  | zero => intro i h; simp [backwardSearch] at h
  | succ m ih =>
    intro i h
    simp only [backwardSearch] at h
    split at h
    · rename_i hge
      split at h
      · rename_i hD
        cases h
        exact ⟨hge, le_refl _, hD, fun k hk1 hk2 => by omega⟩
      · rename_i hD
        obtain ⟨h1, h2, h3, h4⟩ := ih h
        refine ⟨h1, by omega, h3, ?_⟩
        intro k hk1 hk2
        rcases Nat.lt_or_ge k (m + 1) with hlt | hge2
        · exact h4 k hk1 (by omega)
        · have hk : k = m + 1 := by omega
          subst hk
          cases hcase : D (acc.take (m + 1)) with
          | none => rfl
          | some v => simp [hcase] at hD
    · simp at h

/-- A failed backward search means no truncation length in range decodes. -/
theorem backwardSearch_none_all {D : List Nat → Option (List Nat)} {acc : List Nat} :
    ∀ {j}, backwardSearch D acc j = none →
      ∀ k, GZIP_HEADER_SIZE ≤ k → k ≤ j → D (acc.take k) = none := by
  intro j
  induction j with
  | zero => intro h k hk1 hk2; simp [GZIP_HEADER_SIZE] at hk1 hk2; omega
  | succ m ih =>
    intro h k hk1 hk2
    simp only [backwardSearch] at h
    split at h
    · split at h
      · simp at h
      · rename_i hD
        rcases Nat.lt_or_ge k (m + 1) with hlt | hge2
        · exact ih h k hk1 (by omega)
        · have hk : k = m + 1 := by omega
          subst hk
          cases hcase : D (acc.take (m + 1)) with
          | none => rfl
          | some v => simp [hcase] at hD
    · rename_i hge
      simp [GZIP_HEADER_SIZE] at hge hk1
      omega

/-- The last-chunk handler never grows the buffer and keeps at least the
10-byte header. -/
theorem handleLastChunk_length (D : List Nat → Option (List Nat)) (acc : List Nat) :
    (handleLastChunk D acc).length ≤ acc.length ∧
    (GZIP_HEADER_SIZE ≤ acc.length → GZIP_HEADER_SIZE ≤ (handleLastChunk D acc).length) := by
  unfold handleLastChunk
  split
  · exact ⟨le_refl _, fun h => h⟩
  · split
    · rename_i i hbs
      obtain ⟨h1, h2, h3, h4⟩ := backwardSearch_some hbs
      simp only [List.length_take]
      constructor
      · omega
      · intro h
        simp [GZIP_HEADER_SIZE] at h1 ⊢
        omega
    · exact ⟨le_refl _, fun h => h⟩

/-- Full characterisation of a successful `read_chunk` result: the fields of
the returned record, the preview invariant, and the size bounds. -/
theorem read_chunk_ok {D : List Nat → Option (List Nat)} {utf8 : List Nat → Option String}
    {fmtTime : Nat → Option String} {data : List Nat} {offset n : Nat} {c : ChunkInfo}
    (h : read_chunk D utf8 fmtTime data offset n = .ok c) :
    ∃ p span, c.preview_data = some p ∧ c.uncompressed_size = p.length ∧
      D span = some p ∧ c.compressed_size = span.length ∧
      c.compression_ratio = (p.length : ℚ) / (span.length : ℚ) ∧
      GZIP_HEADER_SIZE ≤ c.compressed_size ∧
      c.compressed_size ≤ data.length - offset ∧
      c.offset = offset ∧ c.chunk_number = n := by
  simp only [read_chunk] at h
  split at h
  · simp at h
  · rename_i havail
    split at h
    · split at h
      · simp at h
      · rename_i hdrinfo consumed hparse
        split at h
        · simp at h
        · rename_i scanned found hscan
          split at h
          · rename_i payload hD
            have hheader : ((data.drop offset).take GZIP_HEADER_SIZE).length = GZIP_HEADER_SIZE := by
              simp only [not_lt, List.length_take, List.length_drop, GZIP_HEADER_SIZE] at havail ⊢
              omega
            obtain ⟨hlow, hhigh⟩ := scanLoop_length hscan
            rw [hheader] at hlow hhigh
            have hav : GZIP_HEADER_SIZE ≤ data.length - offset := by
              simp only [not_lt, List.length_drop, GZIP_HEADER_SIZE] at havail ⊢
              omega
            have hbounds :
                GZIP_HEADER_SIZE ≤ (if found = true then scanned
                  else handleLastChunk D scanned).length ∧
                (if found = true then scanned
                  else handleLastChunk D scanned).length ≤ data.length - offset := by
              obtain ⟨hl1, hl2⟩ := handleLastChunk_length D scanned
              simp only [GZIP_HEADER_SIZE] at hlow hhigh hav hl1 hl2 ⊢
              split
              · omega
              · constructor
                · exact hl2 (by omega)
                · omega
            injection h with hc
            subst hc
            refine ⟨payload, _, rfl, rfl, hD, rfl, rfl, ?_, ?_, rfl, rfl⟩
            · exact hbounds.1
            · exact hbounds.2
          · simp at h
    · simp at h

/-! ## Lemmas about the header decoder -/

/-- The extra-field step fails exactly when the EXTRA flag is set and the
declared extra-field region does not fit in the remaining stream. -/
theorem extraFieldStep_error_iff (h3 : Nat) (rest : List Nat) :
    (∃ e, extraFieldStep h3 rest = .error e) ↔
      (h3.testBit 2 = true ∧
       (rest.length < 2 ∨ rest.length - 2 < rest.getD 0 0 + 256 * rest.getD 1 0)) := by
  by_cases hbit : h3.testBit 2 = true
  · by_cases hlen : rest.length < 2
    · simp only [extraFieldStep]
      rw [if_pos hbit, if_pos hlen]
      exact iff_of_true ⟨.headerEof, rfl⟩ ⟨hbit, Or.inl hlen⟩
    · by_cases hx : rest.length - 2 < rest.getD 0 0 + 256 * rest.getD 1 0
      · simp only [extraFieldStep]
        rw [if_pos hbit, if_neg hlen, if_pos hx]
        exact iff_of_true ⟨.headerEof, rfl⟩ ⟨hbit, Or.inr hx⟩
      · simp only [extraFieldStep]
        rw [if_pos hbit, if_neg hlen, if_neg hx]
        refine iff_of_false ?_ ?_
        · rintro ⟨e, he⟩
          exact Except.noConfusion he
        · rintro ⟨-, h | h⟩
          · exact hlen h
          · exact hx h
  · simp only [extraFieldStep]
    rw [if_neg hbit]
    refine iff_of_false ?_ ?_
    · rintro ⟨e, he⟩
      exact Except.noConfusion he
    · rintro ⟨h, -⟩
      exact hbit h

/-- The only error the extra-field step produces is the eof-kind one. -/
theorem extraFieldStep_error_headerEof {h3 : Nat} {rest : List Nat} {e : GzError}
    (h : extraFieldStep h3 rest = .error e) : e = .headerEof := by
  simp only [extraFieldStep] at h
  split at h
  · split at h
    · injection h with h2
      exact h2.symm
    · split at h
      · injection h with h2
        exact h2.symm
      · simp at h
  · simp at h

/-- `parse_gzip_header` fails exactly when the EXTRA flag is set and the
declared extra-field region does not fit in the remaining stream (the two
`read_exact` calls). -/
theorem parse_gzip_header_error_iff (utf8 : List Nat → Option String)
    (fmtTime : Nat → Option String) (header rest : List Nat) :
    (∃ e, parse_gzip_header utf8 fmtTime header rest = .error e) ↔
      ((header.getD 3 0).testBit 2 = true ∧
       (rest.length < 2 ∨ rest.length - 2 < rest.getD 0 0 + 256 * rest.getD 1 0)) := by
  rw [← extraFieldStep_error_iff (header.getD 3 0) rest]
  cases hes : extraFieldStep (header.getD 3 0) rest with
  | error e =>
    simp only [parse_gzip_header, hes]
    exact ⟨fun _ => ⟨e, rfl⟩, fun _ => ⟨e, rfl⟩⟩
  | ok v =>
    obtain ⟨v1, v2⟩ := v
    simp only [parse_gzip_header, hes]
    constructor
    · rintro ⟨e2, he2⟩
      exact Except.noConfusion he2
    · rintro ⟨e2, he2⟩
      exact Except.noConfusion he2

/-- The only error `parse_gzip_header` produces is the eof-kind one. -/
theorem parse_gzip_header_error_headerEof {utf8 : List Nat → Option String}
    {fmtTime : Nat → Option String} {header rest : List Nat} {e : GzError}
    (h : parse_gzip_header utf8 fmtTime header rest = .error e) : e = .headerEof := by
  cases hes : extraFieldStep (header.getD 3 0) rest with
  | error e2 =>
    simp only [parse_gzip_header, hes] at h
    injection h with h2
    subst h2
    exact extraFieldStep_error_headerEof hes
  | ok v =>
    obtain ⟨v1, v2⟩ := v
    simp only [parse_gzip_header, hes] at h
    exact Except.noConfusion h

/-! ## Lemmas about the chunk iterator -/

/-- Every chunk emitted by the iterator carries the ratio quotient of its
own two size fields. -/
theorem inspectLoop_ratio {D : List Nat → Option (List Nat)} {utf8 : List Nat → Option String}
    {fmtTime : Nat → Option String} {data : List Nat} :
    ∀ fuel offset n c, c ∈ (inspectLoop D utf8 fmtTime data fuel offset n).1 →
      c.compression_ratio = (c.uncompressed_size : ℚ) / (c.compressed_size : ℚ) := by
  intro fuel
  induction fuel with
  | zero => intro offset n c hc; simp [inspectLoop] at hc
  | succ m ih =>
    intro offset n c hc
    simp only [inspectLoop] at hc
    split at hc
    · split at hc <;> simp at hc
    · rename_i info hread
      simp at hc
      rcases hc with hc | hc
      · subst hc
        obtain ⟨p, span, h1, h2, h3, h4, h5, -⟩ := read_chunk_ok hread
        rw [h2, h4]
        exact h5
      · exact ih _ _ _ hc

/-- How a successful pass determines the summary from the emitted chunks. -/
theorem inspect_file_ok_summary {D : List Nat → Option (List Nat)}
    {utf8 : List Nat → Option String} {fmtTime : Nat → Option String}
    {data : List Nat} {chunks : List ChunkInfo} {s : FileSummary}
    (h : inspect_file D utf8 fmtTime data = .ok (chunks, s)) :
    chunks = (inspectLoop D utf8 fmtTime data (data.length + 1) 0 0).1 ∧
    s.total_chunks = chunks.length ∧
    s.total_uncompressed_size = (chunks.map ChunkInfo.uncompressed_size).sum ∧
    s.total_compressed_size = (chunks.map ChunkInfo.compressed_size).sum ∧
    s.average_compression_ratio =
      ((chunks.map ChunkInfo.uncompressed_size).sum : ℚ) /
      ((chunks.map ChunkInfo.compressed_size).sum : ℚ) := by
  simp only [inspect_file] at h
  split at h
  · simp at h
  · rename_i cs hloop
    simp only [Except.ok.injEq, Prod.mk.injEq] at h
    obtain ⟨h1, h2⟩ := h
    subst h1
    subst h2
    exact ⟨by rw [hloop], rfl, rfl, rfl, rfl⟩

/-! ## Lemmas about the tail buffer -/

/-- The ordinal stored by `mkChunk`. -/
theorem mkChunk_number (x : Nat) : (mkChunk x).chunk_number = x := rfl

/-- `total_seen` counts the adds and the capacity is fixed. -/
theorem buildBuf_total_seen (cap : Nat) :
    ∀ n, (buildBuf cap n).total_seen = n ∧ (buildBuf cap n).capacity = cap := by
  intro n
  induction n with
  | zero => exact ⟨rfl, rfl⟩
  | succ m ih =>
    obtain ⟨h1, h2⟩ := ih
    simp only [buildBuf, TailBuffer.add]
    split <;> simp [h1, h2]

/-- The physical buffer never exceeds the capacity. -/
theorem buildBuf_len_le (cap : Nat) : ∀ n, (buildBuf cap n).chunks.length ≤ cap := by
  intro n
  induction n with
  | zero => simp [buildBuf, TailBuffer.new]
  | succ m ih =>
    have hcap := (buildBuf_total_seen cap m).2
    simp only [buildBuf, TailBuffer.add]
    split
    · rename_i hlt
      rw [hcap] at hlt
      simp only [List.length_append, List.length_cons, List.length_nil]
      omega
    · simp only [List.length_set]
      exact ih

/-- During the fill phase the buffer holds the chunks in insertion order. -/
theorem buildBuf_fill (cap : Nat) :
    ∀ n, n ≤ cap → (buildBuf cap n).chunks = (List.range n).map mkChunk := by
  intro n
  induction n with
  | zero => intro h; simp [buildBuf, TailBuffer.new]
  | succ m ih =>
    intro h
    have hm := ih (by omega)
    have hlen : (buildBuf cap m).chunks.length = m := by rw [hm]; simp
    have hcap := (buildBuf_total_seen cap m).2
    simp only [buildBuf, TailBuffer.add]
    rw [if_pos (by rw [hlen, hcap]; omega)]
    simp [hm, List.range_succ]

/-- Setting one position of a mapped range is mapping a pointwise update. -/
theorem set_map_range {α : Type} (g : Nat → α) (cap k : Nat) (v : α) :
    ((List.range cap).map g).set k v =
      (List.range cap).map fun s => if s = k then v else g s := by
  apply List.ext_getElem
  · simp
  · intro i h1 h2
    simp only [List.getElem_set, List.getElem_map, List.getElem_range]
    by_cases hik : k = i
    · subst hik
      simp
    · have hik2 : ¬ i = k := fun hc => hik hc.symm
      rw [if_neg hik, if_neg hik2]

/-- Once the buffer has filled, slot `s` holds exactly `slotVal cap n s`. -/
theorem buildBuf_char (cap : Nat) (hcap : 1 ≤ cap) :
    ∀ n, cap ≤ n →
      (buildBuf cap n).chunks = (List.range cap).map (fun s => mkChunk (slotVal cap n s)) := by
  intro n
  induction n with
  | zero => intro h; exact absurd h (by omega)
  | succ m ih =>
    intro h
    rcases Nat.lt_or_ge m cap with hltc | hge
    · have hmc : m + 1 = cap := by omega
      subst hmc
      rw [buildBuf_fill (m + 1) (m + 1) (le_refl _)]
      apply List.map_congr_left
      intro s hs
      simp only [List.mem_range] at hs
      congr 1
      show s = slotVal (m + 1) (m + 1) s
      unfold slotVal
      rcases Nat.eq_zero_or_pos s with hs0 | hspos
      · subst hs0
        simp [Nat.mod_self]
      · have h1 : (m + 1 - s) % (m + 1) = m + 1 - s := Nat.mod_eq_of_lt (by omega)
        rw [h1]
        have h2 : m + 1 - (m + 1 - s) = s := by omega
        rw [h2, if_neg (by omega)]
    · have ihm := ih hge
      have hlen : (buildBuf cap m).chunks.length = cap := by rw [ihm]; simp
      have hcap2 := (buildBuf_total_seen cap m).2
      have hts := (buildBuf_total_seen cap m).1
      have hstep : (buildBuf cap (m + 1)).chunks =
          (buildBuf cap m).chunks.set ((m + 1) % cap) (mkChunk m) := by
        simp only [buildBuf, TailBuffer.add]
        rw [if_neg (by rw [hlen, hcap2]; omega), hts, hcap2]
      rw [hstep, ihm, set_map_range]
      apply List.map_congr_left
      intro s hs
      simp only [List.mem_range] at hs
      by_cases hseq : s = (m + 1) % cap
      · rw [if_pos hseq]
        congr 1
        have hq := Nat.div_add_mod (m + 1) cap
        have hsub : m + 1 - s = cap * ((m + 1) / cap) := by omega
        have h0 : (m + 1 - s) % cap = 0 := by rw [hsub, Nat.mul_mod_right]
        unfold slotVal
        rw [h0, Nat.sub_zero, if_pos (by omega)]
        omega
      · rw [if_neg hseq]
        congr 1
        have hsm : s ≤ m := by omega
        have hne0 : (m + 1 - s) % cap ≠ 0 := by
          intro hc
          apply hseq
          have hq := Nat.div_add_mod (m + 1 - s) cap
          have h2 : m + 1 = cap * ((m + 1 - s) / cap) + s := by omega
          rw [h2, Nat.mul_add_mod, Nat.mod_eq_of_lt hs]
        have key : ((m - s) + 1) % cap = ((m - s) % cap + 1) % cap :=
          ((Nat.mod_modEq (m - s) cap).add_right 1).symm
        have h1 : m + 1 - s = (m - s) + 1 := by omega
        have hr : (m - s) % cap < cap := Nat.mod_lt _ (by omega)
        have hsucc : (m + 1 - s) % cap = (m - s) % cap + 1 := by
          rcases Nat.lt_or_ge ((m - s) % cap + 1) cap with hlt2 | hge2
          · rw [h1, key, Nat.mod_eq_of_lt hlt2]
          · have hreq : (m - s) % cap + 1 = cap := by omega
            exfalso
            apply hne0
            rw [h1, key, hreq, Nat.mod_self]
        unfold slotVal
        rw [hsucc]
        have hmle : (m - s) % cap ≤ m - s := Nat.mod_le _ _
        have harg : m + 1 - ((m - s) % cap + 1) = m - (m - s) % cap := by omega
        rw [harg]

/-- Rendering helper: a zero mtime is "Not set". -/
theorem renderMtime_zero (fmtTime : Nat → Option String) {m : Nat} (h : m = 0) :
    renderMtime fmtTime m = "Not set" := by
  simp [renderMtime, h]

/-- Rendering helper: an unrepresentable nonzero mtime is "Invalid". -/
theorem renderMtime_invalid (fmtTime : Nat → Option String) {m : Nat} (h1 : m ≠ 0)
    (h2 : fmtTime m = none) : renderMtime fmtTime m = "Invalid" := by
  simp [renderMtime, h1, h2]

/-- A conditional UTF-8 decode with an always-failing decoder is unset. -/
theorem ite_none_of_none {c : Prop} [Decidable c] {utf8 : List Nat → Option String}
    (hu : ∀ bs, utf8 bs = none) (bs : List Nat) :
    (if c then utf8 bs else none) = none := by
  split
  · exact hu bs
  · rfl

/-! ## The claims -/

/-- C1 (code bug): the boundary-acceptance rule is trial decompression, but
`read_chunk` omits the optional header-field bytes consumed by
`parse_gzip_header` from the accumulated buffer, so a single valid member
with a NAME field (and a spurious magic pair inside its compressed payload)
does not yield one chunk spanning the member — every decompression attempt
runs on the mutilated buffer and the call fails. -/
theorem claim1_spurious_pair_single_member : IsMember D1 m1c pay1 ∧
    m1c.getD 13 0 = 31 ∧ m1c.getD 14 0 = 139 ∧
    read_chunk D1 u0 f0 m1c 0 0 = .error (.decompressionError 0) ∧
    inspect_file D1 u0 f0 m1c = .error (.decompressionError 0) := by
  refine ⟨?_, by decide, by decide, by decide, by decide⟩
  exact prefixMatcher_isMember m1c pay1 (by decide) (by decide) (by decide) (by decide)

/-- C2 (code bug): a stream of one independently valid member carrying a
COMMENT field yields zero chunks and a fatal error instead of exactly one
chunk with offset 0 covering the stream — the comment bytes are consumed by
the header decoder but dropped from the accumulated buffer, so no
decompression attempt ever sees the member's bytes. -/
theorem claim2_concatenated_members_accounting : IsMember D2 m2c pay2 ∧
    read_chunk D2 u0 f0 m2c 0 0 = .error (.decompressionError 0) ∧
    inspect_file D2 u0 f0 m2c = .error (.decompressionError 0) := by
  refine ⟨?_, by decide, by decide⟩
  exact prefixMatcher_isMember m2c pay2 (by decide) (by decide) (by decide) (by decide)

/-- C3 (code bug): with capacity 3 and seven adds of chunks 0..6,
`get_buffered` returns the chunks in the order 6, 4, 5 — not the ascending
order 4, 5, 6 the spec requires — because `add` overwrites the slot at the
post-increment index `total_seen % capacity`. -/
theorem claim3_tail_buffer_order :
    ((buildBuf 3 7).get_buffered).map ChunkInfo.chunk_number = [6, 4, 5] ∧
    ([6, 4, 5] : List Nat) ≠ [4, 5, 6] := by decide

/-- C4 counterexample: with capacity 2, after three adds (`total_seen = 3 >
capacity`) the buffer still holds chunk 0, which lies outside the claimed
window `[total_seen - capacity, total_seen) = [1, 3)`. -/
theorem claim4_cex : 1 ≤ 2 ∧ (buildBuf 2 3).total_seen = 3 ∧
    2 < (buildBuf 2 3).total_seen ∧
    (buildBuf 2 3).chunks.map ChunkInfo.chunk_number = [0, 2] ∧
    ¬ ((buildBuf 2 3).total_seen - 2 ≤ 0) := by decide

/-- C4 (amended): `chunks.len() ≤ capacity` always holds, and once
`total_seen ≥ 2 * capacity` (rather than `total_seen > capacity`) the buffer
holds exactly the records with chunk numbers in
`[total_seen - capacity, total_seen)`. -/
theorem claim4_ring_window (cap n : Nat) (hcap : 1 ≤ cap) (hn : 2 * cap ≤ n) :
    (∀ m, (buildBuf cap m).chunks.length ≤ cap) ∧
    (buildBuf cap n).chunks.length = cap ∧
    (∀ k, (∃ c ∈ (buildBuf cap n).chunks, c.chunk_number = k) ↔
      (n - cap ≤ k ∧ k < n)) := by
  have hchar := buildBuf_char cap hcap n (by omega)
  refine ⟨buildBuf_len_le cap, by rw [hchar]; simp, ?_⟩
  intro k
  rw [hchar]
  simp only [List.mem_map, List.mem_range]
  constructor
  · rintro ⟨c, ⟨s, hs, hcs⟩, hk⟩
    subst hcs
    rw [mkChunk_number] at hk
    have hr : (n - s) % cap < cap := Nat.mod_lt _ (by omega)
    have hm : cap < n - (n - s) % cap := by omega
    unfold slotVal at hk
    rw [if_pos hm] at hk
    omega
  · rintro ⟨hk1, hk2⟩
    refine ⟨mkChunk (slotVal cap n ((n - (n - 1 - k)) % cap)),
      ⟨(n - (n - 1 - k)) % cap, Nat.mod_lt _ (by omega), rfl⟩, ?_⟩
    rw [mkChunk_number]
    have hrlt : n - 1 - k < cap := by omega
    have hrn : n - 1 - k ≤ n := by omega
    have hslt : (n - (n - 1 - k)) % cap < cap := Nat.mod_lt _ (by omega)
    have hq := Nat.div_add_mod (n - (n - 1 - k)) cap
    have hns : n - (n - (n - 1 - k)) % cap =
        cap * ((n - (n - 1 - k)) / cap) + (n - 1 - k) := by omega
    have hmod : (n - (n - (n - 1 - k)) % cap) % cap = n - 1 - k := by
      rw [hns, Nat.mul_add_mod, Nat.mod_eq_of_lt hrlt]
    unfold slotVal
    rw [hmod, if_pos (by omega)]
    omega

/-- C4 witness: capacity 2 after four adds holds exactly chunks 2 and 3. -/
theorem claim4_witness :
    (∀ m, (buildBuf 2 m).chunks.length ≤ 2) ∧
    (buildBuf 2 4).chunks.length = 2 ∧
    (∀ k, (∃ c ∈ (buildBuf 2 4).chunks, c.chunk_number = k) ↔
      (4 - 2 ≤ k ∧ k < 4)) :=
  claim4_ring_window 2 4 (by decide) (by decide)

/-- C5: when the stream runs out without a confirmed boundary and the whole
accumulation fails to decompress, the last-chunk handler keeps the largest
prefix of length at least the 10-byte header that decompresses (or leaves
the buffer whole when nothing decodes); and every successful `read_chunk`
reports a `compressed_size` no larger than the bytes present in the source
from the member's starting offset. -/
theorem claim5_trailing_recovery :
    (∀ (D : List Nat → Option (List Nat)) (acc : List Nat),
      D acc = none → TruncationSpec D acc) ∧
    (∀ (D : List Nat → Option (List Nat)) (utf8 : List Nat → Option String)
        (fmtTime : Nat → Option String) (data : List Nat) (offset n : Nat)
        (c : ChunkInfo),
      read_chunk D utf8 fmtTime data offset n = .ok c →
      c.compressed_size ≤ data.length - offset) := by
  constructor
  · intro D acc hnone
    have hns : ¬ ((D acc).isSome = true) := by simp [hnone]
    cases hbs : backwardSearch D acc (acc.length - 1) with
    | some i =>
      left
      obtain ⟨h1, h2, h3, h4⟩ := backwardSearch_some hbs
      have h1n : 10 ≤ i := by simpa [GZIP_HEADER_SIZE] using h1
      refine ⟨i, hbs, ?_, h1, by omega, h3, ?_⟩
      · unfold handleLastChunk
        rw [if_neg hns, hbs]
      · intro k hk1 hk2
        exact h4 k hk1 (by omega)
    | none =>
      right
      refine ⟨hbs, ?_, ?_⟩
      · unfold handleLastChunk
        rw [if_neg hns, hbs]
      · intro k hk1 hk2
        exact backwardSearch_none_all hbs k hk1 (by omega)
  · intro D utf8 fmtTime data offset n c h
    obtain ⟨p, span, h1, h2, h3, h4, h5, h6, h7, h8, h9⟩ := read_chunk_ok h
    exact h7

/-- C5 witness: a concrete buffer whose largest decodable prefix has length
11, and a concrete successful read whose size respects the source bound. -/
theorem claim5_witness :
    (D5 acc5 = none ∧ TruncationSpec D5 acc5) ∧
    (∃ c, read_chunk D5b u0 f0 m5 0 0 = .ok c ∧
      c.compressed_size ≤ m5.length - 0) := by
  constructor
  · exact ⟨by decide, claim5_trailing_recovery.1 D5 acc5 (by decide)⟩
  · have hok : (read_chunk D5b u0 f0 m5 0 0).toOption.isSome = true := by decide
    cases hr : read_chunk D5b u0 f0 m5 0 0 with
    | error e =>
      rw [hr] at hok
      simp [Except.toOption] at hok
    | ok c =>
      exact ⟨c, rfl, claim5_trailing_recovery.2 D5b u0 f0 m5 0 0 c hr⟩

/-- C6 counterexample: a member-start position with one byte remaining (not
zero) still produces the normal end-of-stream signal. -/
theorem claim6_cex : 1 ≤ ([31] : List Nat).length - 0 ∧
    read_chunk Dnone u0 f0 [31] 0 0 = .error .endOfFile ∧
    GzError.isEof .endOfFile = true := by decide

/-- C6 (amended): `read_chunk` signals the `UnexpectedEof`-kind condition
exactly when fewer than the 10 header bytes remain at the intended offset,
or when the header reads with a valid magic pair but its EXTRA flag's
declared extra-field region overruns the stream end; in particular the
signal is produced at positions holding 1 to 9 bytes, not only at zero. -/
theorem claim6_eof_iff (D : List Nat → Option (List Nat))
    (utf8 : List Nat → Option String) (fmtTime : Nat → Option String)
    (data : List Nat) (offset n : Nat) :
    (∃ e, read_chunk D utf8 fmtTime data offset n = .error e ∧ e.isEof = true) ↔
      (data.length - offset < GZIP_HEADER_SIZE ∨
       (((data.drop offset).take GZIP_HEADER_SIZE).getD 0 0 = 31 ∧
        ((data.drop offset).take GZIP_HEADER_SIZE).getD 1 0 = 139 ∧
        (((data.drop offset).take GZIP_HEADER_SIZE).getD 3 0).testBit 2 = true ∧
        (data.length - offset - GZIP_HEADER_SIZE < 2 ∨
         data.length - offset - GZIP_HEADER_SIZE - 2 <
           ((data.drop offset).drop GZIP_HEADER_SIZE).getD 0 0 +
           256 * ((data.drop offset).drop GZIP_HEADER_SIZE).getD 1 0))) := by
  constructor
  · rintro ⟨e, he, hEof⟩
    simp only [read_chunk] at he
    split at he
    · rename_i hlt
      left
      simpa using hlt
    · rename_i havail
      split at he
      · rename_i hmagic
        split at he
        · rename_i e2 hparse
          injection he with he2
          subst he2
          right
          have hcond := (parse_gzip_header_error_iff utf8 fmtTime _ _).mp ⟨e2, hparse⟩
          refine ⟨hmagic.1, hmagic.2, hcond.1, ?_⟩
          have h2 := hcond.2
          simpa [List.length_drop] using h2
        · rename_i hdr cons hparse
          split at he
          · rename_i e3 hscan
            injection he with he3
            subst he3
            have h4 := scanLoop_error_eq hscan
            rw [h4] at hEof
            simp [GzError.isEof] at hEof
          · rename_i scanned found hscan
            split at he
            · simp at he
            · injection he with he4
              subst he4
              simp [GzError.isEof] at hEof
      · rename_i hmagic
        injection he with he5
        subst he5
        simp [GzError.isEof] at hEof
  · intro h
    by_cases hlt : data.length - offset < GZIP_HEADER_SIZE
    · refine ⟨.endOfFile, ?_, rfl⟩
      simp only [read_chunk]
      rw [if_pos (by simpa using hlt)]
    · rcases h with h | ⟨h0, h1, hbit, hcond⟩
      · exact absurd h hlt
      · have hcond2 : ((data.drop offset).drop GZIP_HEADER_SIZE).length < 2 ∨
            ((data.drop offset).drop GZIP_HEADER_SIZE).length - 2 <
              ((data.drop offset).drop GZIP_HEADER_SIZE).getD 0 0 +
              256 * ((data.drop offset).drop GZIP_HEADER_SIZE).getD 1 0 := by
          simpa [List.length_drop] using hcond
        obtain ⟨e, he⟩ := (parse_gzip_header_error_iff utf8 fmtTime
          ((data.drop offset).take GZIP_HEADER_SIZE)
          ((data.drop offset).drop GZIP_HEADER_SIZE)).mpr ⟨hbit, hcond2⟩
        have heof := parse_gzip_header_error_headerEof he
        refine ⟨e, ?_, by rw [heof]; rfl⟩
        simp only [read_chunk]
        rw [if_neg (by simpa using hlt), if_pos ⟨h0, h1⟩, he]

/-- C7: when a block append pushes the accumulation past the 20 MiB ceiling
with no boundary found in that block, the loop stops scanning and tries the
accumulated bytes: on success it returns them as a final member (which the
last-chunk handler then passes through unchanged), on failure the result is
the dedicated size-exceeded error, a condition distinct from every other
error of the engine and not mistakable for the end-of-stream signal. -/
theorem claim7_size_ceiling (D : List Nat → Option (List Nat)) (data : List Nat)
    (pos : Nat) (acc : List Nat) (fuel : Nat)
    (hne : ((data.drop pos).take BLOCK_SIZE).length ≠ 0)
    (hfind : findBoundary D acc ((data.drop pos).take BLOCK_SIZE) = none)
    (hsz : SIZE_LIMIT < (acc ++ (data.drop pos).take BLOCK_SIZE).length) :
    ((D (acc ++ (data.drop pos).take BLOCK_SIZE)).isSome = true →
      scanLoop D data pos acc (fuel + 1) =
        .ok (acc ++ (data.drop pos).take BLOCK_SIZE, false) ∧
      handleLastChunk D (acc ++ (data.drop pos).take BLOCK_SIZE) =
        acc ++ (data.drop pos).take BLOCK_SIZE) ∧
    (D (acc ++ (data.drop pos).take BLOCK_SIZE) = none →
      scanLoop D data pos acc (fuel + 1) = .error .chunkTooLarge) ∧
    (GzError.chunkTooLarge ≠ GzError.endOfFile ∧
     GzError.chunkTooLarge ≠ GzError.headerEof ∧
     (∀ o, GzError.chunkTooLarge ≠ GzError.decompressionError o) ∧
     (∀ b0 b1 b2, GzError.chunkTooLarge ≠ GzError.invalidHeader b0 b1 b2) ∧
     GzError.isEof .chunkTooLarge = false) := by
  refine ⟨?_, ?_, by simp, by simp, by simp, by simp, rfl⟩
  · intro hD
    constructor
    · simp only [scanLoop]
      rw [if_neg hne]
      simp only [hfind]
      rw [if_pos hsz, if_pos hD]
    · unfold handleLastChunk
      rw [if_pos hD]
  · intro hDn
    have hDn2 : ¬ ((D (acc ++ (data.drop pos).take BLOCK_SIZE)).isSome = true) := by
      simp [hDn]
    simp only [scanLoop]
    rw [if_neg hne]
    simp only [hfind]
    rw [if_pos hsz, if_neg hDn2]

/-- C7 witness: a one-byte block appended to a ceiling-sized accumulation
under an always-failing decoder produces the size-exceeded error. -/
theorem claim7_witness :
    scanLoop Dnone data7 0 acc7 1 = .error .chunkTooLarge ∧
    GzError.isEof .chunkTooLarge = false := by
  have hne : ((data7.drop 0).take BLOCK_SIZE).length ≠ 0 := by decide
  have hfind : findBoundary Dnone acc7 ((data7.drop 0).take BLOCK_SIZE) = none := by
    decide
  have hlen7 : acc7.length = SIZE_LIMIT := by
    simp only [acc7, List.length_replicate]
  have hblk7 : ((data7.drop 0).take BLOCK_SIZE).length = 1 := by decide
  have hsz : SIZE_LIMIT < (acc7 ++ (data7.drop 0).take BLOCK_SIZE).length := by
    rw [List.length_append, hlen7, hblk7]
    omega
  obtain ⟨-, h2, -⟩ := claim7_size_ceiling Dnone data7 0 acc7 0 hne hfind hsz
  exact ⟨h2 rfl, rfl⟩

/-- C8: header parsing never fails on account of an unparseable timestamp
(rendered "Invalid", with 0 rendered "Not set"), a non-UTF-8 filename or
comment (left unset), or a subfield length overrunning the extra-field
buffer (its data treated as empty): whenever the declared extra-field
region fits the stream, parsing succeeds for every timestamp renderer and
every UTF-8 decoder, including ones that always fail. -/
theorem claim8_soft_recoveries :
    (∀ (utf8 : List Nat → Option String) (fmtTime : Nat → Option String)
        (header rest : List Nat),
      ((header.getD 3 0).testBit 2 = true →
        2 ≤ rest.length ∧ rest.getD 0 0 + 256 * rest.getD 1 0 ≤ rest.length - 2) →
      ∃ info consumed,
        parse_gzip_header utf8 fmtTime header rest = .ok (info, consumed) ∧
        (header.getD 4 0 + 256 * header.getD 5 0 + 65536 * header.getD 6 0 +
            16777216 * header.getD 7 0 = 0 → info.mtime = "Not set") ∧
        (header.getD 4 0 + 256 * header.getD 5 0 + 65536 * header.getD 6 0 +
            16777216 * header.getD 7 0 ≠ 0 →
          fmtTime (header.getD 4 0 + 256 * header.getD 5 0 + 65536 * header.getD 6 0 +
            16777216 * header.getD 7 0) = none → info.mtime = "Invalid") ∧
        ((∀ bs, utf8 bs = none) → info.filename = none ∧ info.comment = none)) ∧
    (∀ (extra : List Nat) (pos fuel : Nat),
      pos + 4 ≤ extra.length →
      extra.length < pos + 4 + (extra.getD (pos + 2) 0 + 256 * extra.getD (pos + 3) 0) →
      parseSubfields extra pos (fuel + 1) =
        (Nat.lor (Nat.shiftLeft (extra.getD pos 0) 8) (extra.getD (pos + 1) 0), []) ::
          parseSubfields extra
            (pos + 4 + (extra.getD (pos + 2) 0 + 256 * extra.getD (pos + 3) 0)) fuel) := by
  constructor
  · intro utf8 fmtTime header rest hex
    have hok : ∃ v, extraFieldStep (header.getD 3 0) rest = .ok v := by
      cases hes : extraFieldStep (header.getD 3 0) rest with
      | ok v => exact ⟨v, rfl⟩
      | error e =>
        obtain ⟨hbit, hcond⟩ := (extraFieldStep_error_iff _ _).mp ⟨e, hes⟩
        obtain ⟨hl2, hxle⟩ := hex hbit
        omega
    obtain ⟨⟨ec, ef⟩, hes⟩ := hok
    simp only [parse_gzip_header, hes]
    refine ⟨_, _, rfl, ?_, ?_, ?_⟩
    · intro h0
      exact renderMtime_zero fmtTime h0
    · intro hne hf
      exact renderMtime_invalid fmtTime hne hf
    · intro hu
      exact ⟨ite_none_of_none hu _, ite_none_of_none hu _⟩
  · intro extra pos fuel hin hover
    simp only [parseSubfields]
    rw [if_pos hin,
      if_neg (by omega :
        ¬ (pos + 4 + (extra.getD (pos + 2) 0 + 256 * extra.getD (pos + 3) 0) ≤ extra.length))]

/-- C8 witness: a header with the EXTRA flag, a fitting extra field whose
single subfield overruns, and always-failing renderers still parse. -/
theorem claim8_witness :
    (∃ info consumed,
      parse_gzip_header u0 f0 hdr8 rest8 = .ok (info, consumed) ∧
      (hdr8.getD 4 0 + 256 * hdr8.getD 5 0 + 65536 * hdr8.getD 6 0 +
          16777216 * hdr8.getD 7 0 = 0 → info.mtime = "Not set") ∧
      (hdr8.getD 4 0 + 256 * hdr8.getD 5 0 + 65536 * hdr8.getD 6 0 +
          16777216 * hdr8.getD 7 0 ≠ 0 →
        f0 (hdr8.getD 4 0 + 256 * hdr8.getD 5 0 + 65536 * hdr8.getD 6 0 +
          16777216 * hdr8.getD 7 0) = none → info.mtime = "Invalid") ∧
      ((∀ bs, u0 bs = none) → info.filename = none ∧ info.comment = none)) ∧
    parseSubfields [65, 66, 3, 0] 0 (4 + 1) =
      (16706, []) :: parseSubfields [65, 66, 3, 0] 7 4 := by
  constructor
  · exact claim8_soft_recoveries.1 u0 f0 hdr8 rest8 (by decide)
  · exact claim8_soft_recoveries.2 [65, 66, 3, 0] 0 4 (by decide) (by decide)

/-- C9: for every completed pass the summary's average compression ratio is
the quotient of the totals (the sums over all emitted chunks), and on a
concrete two-member stream with different per-chunk ratios this quotient
differs from the arithmetic mean of the per-chunk ratios. -/
theorem claim9_average_ratio :
    (∀ (D : List Nat → Option (List Nat)) (utf8 : List Nat → Option String)
        (fmtTime : Nat → Option String) (data : List Nat)
        (chunks : List ChunkInfo) (s : FileSummary),
      inspect_file D utf8 fmtTime data = .ok (chunks, s) →
      s.total_uncompressed_size = (chunks.map ChunkInfo.uncompressed_size).sum ∧
      s.total_compressed_size = (chunks.map ChunkInfo.compressed_size).sum ∧
      s.average_compression_ratio =
        (s.total_uncompressed_size : ℚ) / (s.total_compressed_size : ℚ)) ∧
    (∃ chunks s, inspect_file D9 u0 f0 s9 = .ok (chunks, s) ∧
      s.average_compression_ratio = 79 / 26 ∧
      meanOfChunkRatios chunks = 23 / 8 ∧
      s.average_compression_ratio ≠ meanOfChunkRatios chunks) := by
  constructor
  · intro D utf8 fmtTime data chunks s h
    obtain ⟨-, -, h3, h4, h5⟩ := inspect_file_ok_summary h
    refine ⟨h3, h4, ?_⟩
    rw [h3, h4]
    exact h5
  · have hsome : (inspect_file D9 u0 f0 s9).toOption.isSome = true := by decide
    cases hr : inspect_file D9 u0 f0 s9 with
    | error e =>
      rw [hr] at hsome
      simp [Except.toOption] at hsome
    | ok pr =>
      obtain ⟨chunks, s⟩ := pr
      obtain ⟨hcs, -, h3, h4, h5⟩ := inspect_file_ok_summary hr
      have hproj : (inspect_file D9 u0 f0 s9).toOption.map
          (fun r => (r.1.map ChunkInfo.uncompressed_size,
            r.1.map ChunkInfo.compressed_size)) =
          some ([70, 9], [14, 12]) := by decide
      rw [hr] at hproj
      simp [Except.toOption] at hproj
      obtain ⟨hu, hc⟩ := hproj
      have hratio : ∀ c ∈ chunks, c.compression_ratio =
          (c.uncompressed_size : ℚ) / (c.compressed_size : ℚ) := by
        intro c hcmem
        rw [hcs] at hcmem
        exact inspectLoop_ratio _ _ _ c hcmem
      rcases chunks with _ | ⟨a, _ | ⟨b, _ | ⟨c3, t⟩⟩⟩
      · simp at hu
      · simp at hu
      · have hra := hratio a (by simp)
        have hrb := hratio b (by simp)
        simp at hu hc
        obtain ⟨hau, hbu⟩ := hu
        obtain ⟨hac, hbc⟩ := hc
        have havg : s.average_compression_ratio = 79 / 26 := by
          rw [h5]
          simp [hau, hbu, hac, hbc]
        have hmean : meanOfChunkRatios [a, b] = 23 / 8 := by
          simp [meanOfChunkRatios, hra, hrb, hau, hbu, hac, hbc]
          norm_num
        refine ⟨[a, b], s, rfl, havg, hmean, ?_⟩
        rw [havg, hmean]
        norm_num
      · simp at hu

/-- C9 witness: a concrete completed pass instantiating the totals law. -/
theorem claim9_witness :
    ∃ chunks s, inspect_file D9 u0 f0 s9 = .ok (chunks, s) ∧
      (s.total_uncompressed_size = (chunks.map ChunkInfo.uncompressed_size).sum ∧
       s.total_compressed_size = (chunks.map ChunkInfo.compressed_size).sum ∧
       s.average_compression_ratio =
         (s.total_uncompressed_size : ℚ) / (s.total_compressed_size : ℚ)) := by
  have hsome : (inspect_file D9 u0 f0 s9).toOption.isSome = true := by decide
  cases hr : inspect_file D9 u0 f0 s9 with
  | error e =>
    rw [hr] at hsome
    simp [Except.toOption] at hsome
  | ok pr =>
    obtain ⟨chunks, s⟩ := pr
    exact ⟨chunks, s, rfl, claim9_average_ratio.1 D9 u0 f0 s9 chunks s hr⟩

/-- C10: every successful `read_chunk` materializes the full decoded payload
in `preview_data`, reports its length as `uncompressed_size`, spans at least
the 10-byte header, and computes the ratio quotient with that nonzero
compressed size as divisor. -/
theorem claim10_chunk_invariants (D : List Nat → Option (List Nat))
    (utf8 : List Nat → Option String) (fmtTime : Nat → Option String)
    (data : List Nat) (offset n : Nat) (c : ChunkInfo)
    (h : read_chunk D utf8 fmtTime data offset n = .ok c) :
    (∃ p, c.preview_data = some p ∧ c.uncompressed_size = p.length ∧
      ∃ span, D span = some p ∧ c.compressed_size = span.length) ∧
    GZIP_HEADER_SIZE ≤ c.compressed_size ∧ c.compressed_size ≠ 0 ∧
    c.compression_ratio = (c.uncompressed_size : ℚ) / (c.compressed_size : ℚ) := by
  obtain ⟨p, span, h1, h2, h3, h4, h5, h6, h7, h8, h9⟩ := read_chunk_ok h
  refine ⟨⟨p, h1, h2, span, h3, h4⟩, h6, ?_, ?_⟩
  · simp only [GZIP_HEADER_SIZE] at h6
    omega
  · rw [h2, h4]
    exact h5

/-- C10 witness: a concrete successful read instantiating the invariants. -/
theorem claim10_witness :
    ∃ c, read_chunk D10 u0 f0 m10 0 0 = .ok c ∧
      ((∃ p, c.preview_data = some p ∧ c.uncompressed_size = p.length ∧
        ∃ span, D10 span = some p ∧ c.compressed_size = span.length) ∧
      GZIP_HEADER_SIZE ≤ c.compressed_size ∧ c.compressed_size ≠ 0 ∧
      c.compression_ratio = (c.uncompressed_size : ℚ) / (c.compressed_size : ℚ)) := by
  have hok : (read_chunk D10 u0 f0 m10 0 0).toOption.isSome = true := by decide
  cases hr : read_chunk D10 u0 f0 m10 0 0 with
  | error e =>
    rw [hr] at hok
    simp [Except.toOption] at hok
  | ok c =>
    exact ⟨c, rfl, claim10_chunk_invariants D10 u0 f0 m10 0 0 c hr⟩

end GzInspector
